import Mathlib

/-!
Shallow embedding of `src/modules/tools/spindle/A131SpindleControl.cpp`
(Smoothieware A131 RS485 spindle control module).

Bytes are modelled as `Nat` values in `[0, 256)`; `char` assignment of a wider
integer expression truncates mod 256 (the transmitted octet is the low byte in
either signedness convention).  The C `int` argument of `set_speed` is modelled
as `Int` with C truncating division (`Int.tdiv`), and the conversion of the
`int` expression `target_rpm / 60 * 100` to `unsigned int` reduces mod 2^32.

External effects (RS485 direction line, delays, serial writes and reads, the
diagnostic printf) are modelled by an explicit machine state carrying an event
log, so the temporal claims become statements about the produced log.
-/

namespace A131

/-- An observable external effect of the module: direction-line toggles,
millisecond delays, a 9-byte frame write, a single-byte serial read
(`BufferedSoftSerial::getc`), and the diagnostic RPM report printf. -/
inductive Event where
  | dirSet : Event
  | dirClear : Event
  | delayMs : Int → Event
  | writeFrame : List Nat → Event
  | readByte : Nat → Event
  | printRpm : Nat → Event
deriving DecidableEq, Repr

/-- State of the controller and its transport: the `spindle_on` member of the
controller, the RS485 direction line, the serial receive buffer currently
readable without blocking, the stream of bytes that future blocking reads will
deliver (with `pos` the next stream index), and the log of external effects. -/
structure MachineState where
  spindle_on : Bool
  dir : Bool
  buf : List Nat
  stream : Nat → Nat
  pos : Nat
  log : List Event

/-- `modbus->dir_output->set()`. -/
def dir_set (s : MachineState) : MachineState :=
  { s with dir := true, log := s.log ++ [Event.dirSet] }

/-- `modbus->dir_output->clear()`. -/
def dir_clear (s : MachineState) : MachineState :=
  { s with dir := false, log := s.log ++ [Event.dirClear] }

/-- `modbus->delay(ms)`. -/
def delay (ms : Int) (s : MachineState) : MachineState :=
  { s with log := s.log ++ [Event.delayMs ms] }

/-- `modbus->serial->write(msg, n)`: the frame bytes appear on the wire in
order, as one write event. -/
def serial_write (bs : List Nat) (s : MachineState) : MachineState :=
  { s with log := s.log ++ [Event.writeFrame bs] }

/-- `modbus->serial->readable()`: non-blocking check for a buffered byte. -/
def serial_readable (s : MachineState) : Bool :=
  !s.buf.isEmpty

/-- `modbus->serial->getc()`: blocking single-byte read.  A buffered byte is
returned first; with an empty buffer the next byte of the incoming stream is
delivered.  Every consumed byte is logged as a `readByte` event. -/
def getc (s : MachineState) : Nat × MachineState :=
  match s.buf with
  | b :: rest => (b, { s with buf := rest, log := s.log ++ [Event.readByte b] })
  | [] => (s.stream s.pos,
      { s with pos := s.pos + 1, log := s.log ++ [Event.readByte (s.stream s.pos)] })

/-- The 9-byte frame transmitted by `turn_on` (lines 129-135): the literal
initializer `{0x00, 0x55, 0x00, 0x00, 0x00, 0x01, 0x54, 0xA9, 0xFF}` followed
by the two in-place assignments
`msg[7] = msg[2]^msg[3]^msg[4]^msg[5]^msg[6]` and
`msg[8] = msg[2]+msg[3]+msg[4]+msg[5]+msg[6]+msg[7]` (char assignment of the
int sum keeps the low byte). -/
def turn_on_msg : List Nat :=
  let m : List Nat := [0x00, 0x55, 0x00, 0x00, 0x00, 0x01, 0x54, 0xA9, 0xFF]
  let m := m.set 7 ((((m.getD 2 0 ^^^ m.getD 3 0) ^^^ m.getD 4 0) ^^^ m.getD 5 0) ^^^ m.getD 6 0)
  m.set 8 ((m.getD 2 0 + m.getD 3 0 + m.getD 4 0 + m.getD 5 0 + m.getD 6 0 + m.getD 7 0) % 256)

/-- The 9-byte frame transmitted by `turn_off` (lines 160-163): the literal
initializer, transmitted unmodified (no checksum recomputation exists in
`turn_off`). -/
def turn_off_msg : List Nat :=
  [0x00, 0x55, 0x00, 0x00, 0x01, 0x01, 0x54, 0xA9, 0xFF]

/-- `unsigned int hz = target_rpm / 60 * 100;` (line 194): C `int` division
truncates toward zero (`Int.tdiv`), and the conversion of the resulting `int`
value to `unsigned int` reduces mod 2^32. -/
def set_speed_hz (target_rpm : Int) : Nat :=
  ((target_rpm.tdiv 60 * 100) % 4294967296).toNat

/-- The 9-byte frame transmitted by `set_speed` (lines 188-197): the literal
initializer `{0x00, 0x55, 0x00, 0x00, 0x06, 0x01, 0x54, 0xA9, 0xFF}` followed
by `msg[3] = (hz >> 8)` and `msg[4] = hz & 0xFF` (char assignment keeps the
low byte; `hz & 0xFF = hz % 256`).  No checksum recomputation exists in
`set_speed`. -/
def set_speed_msg (target_rpm : Int) : List Nat :=
  let m : List Nat := [0x00, 0x55, 0x00, 0x00, 0x06, 0x01, 0x54, 0xA9, 0xFF]
  let hz := set_speed_hz target_rpm
  let m := m.set 3 ((hz >>> 8) % 256)
  m.set 4 (hz % 256)

/-- Checksum XOR trailer as the spec defines it (§3): XOR of the frame's
protocol bytes 2-6, i.e. 0-based indices 1-5.  Stated from the spec's words for
comparison against the frames the code actually transmits. -/
def spec_xor_trailer (frame : List Nat) : Nat :=
  (((frame.getD 1 0 ^^^ frame.getD 2 0) ^^^ frame.getD 3 0) ^^^ frame.getD 4 0) ^^^ frame.getD 5 0

/-- Checksum ADD trailer as the spec defines it (§3): sum of the frame's
protocol bytes 2-6 plus the XOR trailer, truncated to one byte. -/
def spec_add_trailer (frame : List Nat) : Nat :=
  (frame.getD 1 0 + frame.getD 2 0 + frame.getD 3 0 + frame.getD 4 0 + frame.getD 5 0
    + spec_xor_trailer frame) % 256

/-- C1: the claim says `turn_on` transmits exactly
`[0x00, 0x55, 0x00, 0x00, 0x00, 0x01, 0x54, 0xA9, 0xFF]`.  Evaluating the code:
the in-place checksum assignments overwrite indices 7 and 8, so the frame
actually transmitted is `[0x00, 0x55, 0x00, 0x00, 0x00, 0x01, 0x54, 0x55, 0xAA]`,
which differs from the claimed frame (and clobbers the 0xFF terminator that the
in-file protocol description fixes at byte 9). -/
theorem c1_turn_on_frame_eval :
    turn_on_msg = [0x00, 0x55, 0x00, 0x00, 0x00, 0x01, 0x54, 0x55, 0xAA] ∧
    turn_on_msg ≠ [0x00, 0x55, 0x00, 0x00, 0x00, 0x01, 0x54, 0xA9, 0xFF] := by
  decide

/-- C2: the claim says `turn_off` and `set_speed` transmit trailer checksum
bytes freshly recomputed from the actual payload.  Evaluating the code: both
transmit the stale literals `0x54, 0xA9` at the trailer positions (indices 6
and 7), while the checksum pair freshly computed over protocol bytes 2-6 is
`(0x55, 0xAC)` for the `turn_off` frame and `(0xCF, 0xC0)` for the
`set_speed(3000)` frame. -/
theorem c2_stale_trailer_eval :
    (turn_off_msg.getD 6 0 = 0x54 ∧ turn_off_msg.getD 7 0 = 0xA9) ∧
    (spec_xor_trailer turn_off_msg = 0x55 ∧ spec_add_trailer turn_off_msg = 0xAC) ∧
    ((set_speed_msg 3000).getD 6 0 = 0x54 ∧ (set_speed_msg 3000).getD 7 0 = 0xA9) ∧
    (spec_xor_trailer (set_speed_msg 3000) = 0xCF ∧
      spec_add_trailer (set_speed_msg 3000) = 0xC0) ∧
    ¬(turn_off_msg.getD 6 0 = spec_xor_trailer turn_off_msg ∧
      turn_off_msg.getD 7 0 = spec_add_trailer turn_off_msg) := by
  decide

/-- C3: the claim says the checksum computation takes the payload
protocol bytes 2-6 and places XOR at protocol position 7 (index 6) and ADD at
protocol position 8 (index 7).  Evaluating the only checksum computation in the
code (`turn_on`, lines 134-135): it reads indices 2-6 (protocol bytes 3-7,
which include the stale XOR slot) and writes its results to indices 7 and 8
(protocol positions 8 and 9, overwriting the ADD slot and the 0xFF
terminator).  In particular the byte at protocol position 8 is 0x55, not the
ADD value 0xAA that the claimed computation would place there, and protocol
position 9 holds 0xAA instead of 0xFF. -/
theorem c3_checksum_placement_eval :
    turn_on_msg.getD 6 0 = 0x54 ∧
    turn_on_msg.getD 7 0 = 0x55 ∧
    turn_on_msg.getD 8 0 = 0xAA ∧
    spec_xor_trailer turn_on_msg = 0x54 ∧
    spec_add_trailer turn_on_msg = 0xAA ∧
    turn_on_msg.getD 7 0 ≠ spec_add_trailer turn_on_msg ∧
    turn_on_msg.getD 7 0 =
      (((turn_on_msg.getD 2 0 ^^^ turn_on_msg.getD 3 0) ^^^ turn_on_msg.getD 4 0)
        ^^^ turn_on_msg.getD 5 0) ^^^ turn_on_msg.getD 6 0 := by
  decide

/-- C4: the claim says every transmitted frame has protocol bytes 1, 2, 6, 9
equal to 0x00, 0x55, 0x01, 0xFF.  Evaluating the code: `turn_off` and
`set_speed` (for every rpm) satisfy all four, but `turn_on` transmits 0xAA at
protocol byte 9 (index 8), violating the 0xFF invariant. -/
theorem c4_fixed_bytes_eval :
    (turn_on_msg.getD 0 0 = 0x00 ∧ turn_on_msg.getD 1 0 = 0x55 ∧
      turn_on_msg.getD 5 0 = 0x01 ∧ turn_on_msg.getD 8 0 = 0xAA ∧
      turn_on_msg.getD 8 0 ≠ 0xFF) ∧
    (turn_off_msg.getD 0 0 = 0x00 ∧ turn_off_msg.getD 1 0 = 0x55 ∧
      turn_off_msg.getD 5 0 = 0x01 ∧ turn_off_msg.getD 8 0 = 0xFF) ∧
    (∀ rpm : Int, (set_speed_msg rpm).getD 0 0 = 0x00 ∧
      (set_speed_msg rpm).getD 1 0 = 0x55 ∧
      (set_speed_msg rpm).getD 5 0 = 0x01 ∧
      (set_speed_msg rpm).getD 8 0 = 0xFF) := by
  refine ⟨by decide, by decide, fun rpm => ?_⟩
  exact ⟨rfl, rfl, rfl, rfl⟩

/-- `while(modbus->serial->readable()) { modbus->serial->getc(); }` (lines
239-241): discard buffered bytes until none remain.  Terminates because each
iteration consumes one buffered byte. -/
def drain (s : MachineState) : MachineState :=
  if h : serial_readable s then drain (getc s).2 else s
termination_by s.buf.length
decreasing_by
  cases hb : s.buf with
  | nil => simp [serial_readable, hb] at h
  | cons a t => simp [getc, hb]

/-- The drain loop discards exactly the buffered bytes, in order, leaving the
buffer empty and the stream position untouched. -/
theorem drain_spec (l : List Nat) : ∀ s : MachineState, s.buf = l →
    drain s = { s with buf := [], log := s.log ++ l.map Event.readByte } := by
  induction l with
  | nil =>
    intro s h
    rw [drain]
    obtain ⟨so, d, b, st, p, lg⟩ := s
    change b = [] at h
    subst h
    simp [serial_readable]
  | cons a t ih =>
    intro s h
    rw [drain]
    obtain ⟨so, d, b, st, p, lg⟩ := s
    change b = a :: t at h
    subst h
    have hr : serial_readable ⟨so, d, a :: t, st, p, lg⟩ = true := by
      simp [serial_readable]
    rw [dif_pos hr]
    have hg : (getc ⟨so, d, a :: t, st, p, lg⟩).2 =
        ⟨so, d, t, st, p, lg ++ [Event.readByte a]⟩ := by
      simp [getc]
    rw [hg, ih _ rfl]
    simp

/-- `for(int i = 0; i < 13; i++){ speed[i] = modbus->serial->getc(); }`
generalized over the count: perform `n` blocking single-byte reads in order,
returning the bytes read and the resulting state. -/
def read_bytes : Nat → MachineState → List Nat × MachineState
  | 0, s => ([], s)
  | n + 1, s =>
    let p := getc s
    let q := read_bytes n p.2
    (p.1 :: q.1, q.2)

/-- The `n` bytes of the incoming stream starting at position `p`. -/
def streamSlice (f : Nat → Nat) (p n : Nat) : List Nat :=
  (List.range n).map fun i => f (p + i)

theorem streamSlice_succ (f : Nat → Nat) (p n : Nat) :
    streamSlice f p (n + 1) = f p :: streamSlice f (p + 1) n := by
  unfold streamSlice
  rw [List.range_succ_eq_map]
  simp only [List.map_cons, List.map_map, Nat.add_zero]
  congr 1
  apply List.map_congr_left
  intro i _
  have : p + (i + 1) = p + 1 + i := by omega
  simp [Function.comp, this]

/-- With an empty buffer, `n` blocking reads deliver exactly the next `n`
stream bytes, advance the position by `n`, and log each byte in order. -/
theorem read_bytes_spec (n : Nat) : ∀ s : MachineState, s.buf = [] →
    read_bytes n s = (streamSlice s.stream s.pos n,
      { s with pos := s.pos + n,
               log := s.log ++ (streamSlice s.stream s.pos n).map Event.readByte }) := by
  induction n with
  | zero =>
    intro s _
    obtain ⟨so, d, b, st, p, lg⟩ := s
    simp [read_bytes, streamSlice]
  | succ n ih =>
    intro s h
    obtain ⟨so, d, b, st, p, lg⟩ := s
    change b = [] at h
    subst h
    have hg : getc ⟨so, d, [], st, p, lg⟩ =
        (st p, ⟨so, d, [], st, p + 1, lg ++ [Event.readByte (st p)]⟩) := by
      simp [getc]
    simp only [read_bytes, hg]
    rw [ih _ rfl]
    rw [streamSlice_succ]
    simp [List.append_assoc]
    omega

/-- `unsigned int hz = (int)speed[3]*100 + (int)speed[4]*10 + (int)speed[5]*1
+ (int)speed[6]*0.1 + (int)speed[7]*0.01;` (line 286).  The C expression is
evaluated in IEEE-754 double precision and the result is truncated toward zero
on conversion to `unsigned int`; it is modelled here by the exact rational
value with `Rat.floor`.  For octet operands the two agree: the integer terms
are exact in double precision, the fractional terms `d*0.1 + d*0.01` for
digit bytes stay within `[0, 1)` in both arithmetics (e.g. `5 * 0.1` rounds to
exactly `0.5` in binary64), and the value is non-negative, so truncation
toward zero is the floor of the same integer part. -/
def report_hz (d1 d2 d3 d4 d5 : Nat) : Nat :=
  (Int.floor ((d1 : ℚ) * 100 + (d2 : ℚ) * 10 + (d3 : ℚ) * 1
    + (d4 : ℚ) * (1 / 10) + (d5 : ℚ) * (1 / 100))).toNat

/-- `A131SpindleControl::report_speed()` (lines 236-291): drain the receive
buffer, block-read the 13-byte status frame, decode digits `speed[3..7]` into
a frequency, convert with `rpm = hz / 100 * 60` (line 287, integer division
before multiplication), and print the RPM value. -/
def report_speed (s : MachineState) : MachineState :=
  let s1 := drain s
  let q := read_bytes 13 s1
  let speed := q.1
  let hz := report_hz (speed.getD 3 0) (speed.getD 4 0) (speed.getD 5 0)
    (speed.getD 6 0) (speed.getD 7 0)
  let rpm := hz / 100 * 60
  { q.2 with log := q.2.log ++ [Event.printRpm rpm] }

/-- `A131SpindleControl::turn_on()` (lines 126-155), effect part: enable the
transmitter, settle 1 ms, write the 9-byte frame, wait
`(int)ceil(sizeof(msg) * modbus->delay_time)`, disable the transmitter, wait
the 50 ms guard, then set `spindle_on = true`.  `dt` is the transport's
per-byte `delay_time` (a float in the source, modelled as a rational). -/
def turn_on (dt : ℚ) (s : MachineState) : MachineState :=
  let s := dir_set s
  let s := delay 1 s
  let s := serial_write turn_on_msg s
  let s := delay ((turn_on_msg.length : ℚ) * dt).ceil s
  let s := dir_clear s
  let s := delay 50 s
  { s with spindle_on := true }

/-- `A131SpindleControl::turn_off()` (lines 157-183): same transmission
sequence with the off-frame, then `spindle_on = false`. -/
def turn_off (dt : ℚ) (s : MachineState) : MachineState :=
  let s := dir_set s
  let s := delay 1 s
  let s := serial_write turn_off_msg s
  let s := delay ((turn_off_msg.length : ℚ) * dt).ceil s
  let s := dir_clear s
  let s := delay 50 s
  { s with spindle_on := false }

/-- `A131SpindleControl::set_speed(int)` (lines 185-214): same transmission
sequence with the speed frame; `spindle_on` is not assigned. -/
def set_speed (dt : ℚ) (target_rpm : Int) (s : MachineState) : MachineState :=
  let s := dir_set s
  let s := delay 1 s
  let s := serial_write (set_speed_msg target_rpm) s
  let s := delay (((set_speed_msg target_rpm).length : ℚ) * dt).ceil s
  let s := dir_clear s
  delay 50 s

/-- C5: `set_speed` computes `hz = target_rpm / 60 * 100` with the integer
division performed before the multiplication, and places the result big-endian
into frame indices 3 and 4 (`hz >> 8` and `hz & 0xFF`); in particular
`set_speed(3000)` yields `hz = 5000 = 0x1388` and frame bytes `0x13, 0x88`. -/
theorem c5_speed_frame (rpm : Int) (h0 : 0 ≤ rpm) (h1 : rpm ≤ 2147483647) :
    set_speed_hz rpm = rpm.toNat / 60 * 100 ∧
    (set_speed_msg rpm).getD 3 0 = set_speed_hz rpm / 256 % 256 ∧
    (set_speed_msg rpm).getD 4 0 = set_speed_hz rpm % 256 ∧
    set_speed_hz 3000 = 5000 ∧
    (set_speed_msg 3000).getD 3 0 = 0x13 ∧
    (set_speed_msg 3000).getD 4 0 = 0x88 := by
  obtain ⟨n, rfl⟩ := Int.eq_ofNat_of_zero_le h0
  have hn : n ≤ 2147483647 := by exact_mod_cast h1
  have hdiv : n / 60 ≤ 35791394 := by
    calc n / 60 ≤ 2147483647 / 60 := Nat.div_le_div_right hn
    _ = 35791394 := by norm_num
  have hlt : (n / 60 * 100 : Int) < 4294967296 := by
    have : n / 60 * 100 ≤ 3579139400 := by omega
    exact_mod_cast Nat.lt_of_le_of_lt this (by norm_num)
  have htd : (n : Int).tdiv 60 = ((n / 60 : Nat) : Int) := by
    simp [Int.tdiv]
  have hz : set_speed_hz n = n / 60 * 100 := by
    unfold set_speed_hz
    rw [htd]
    omega
  refine ⟨hz, ?_, ?_, by decide, by decide, by decide⟩
  · show (set_speed_hz n >>> 8) % 256 = set_speed_hz n / 256 % 256
    rw [Nat.shiftRight_eq_div_pow]
  · rfl

/-- C5 witness: the theorem instantiated at `target_rpm = 3000`. -/
theorem c5_speed_frame_witness :
    set_speed_hz 3000 = (3000 : Int).toNat / 60 * 100 ∧
    (set_speed_msg 3000).getD 3 0 = 0x13 ∧
    (set_speed_msg 3000).getD 4 0 = 0x88 := by
  have h := c5_speed_frame 3000 (by decide) (by decide)
  exact ⟨h.1, h.2.2.2.2.1, h.2.2.2.2.2⟩

/-- C10: for every `target_rpm` from 0 to 59 the division by 60 truncates to
zero before the multiplication by 100, so `hz = 0`, the two frequency bytes at
indices 3 and 4 are both 0x00, and the transmitted frame is byte-for-byte the
frame of `set_speed(0)`. -/
theorem c10_low_rpm_zero_frame (rpm : Int) (h0 : 0 ≤ rpm) (h1 : rpm ≤ 59) :
    set_speed_hz rpm = 0 ∧
    (set_speed_msg rpm).getD 3 0 = 0x00 ∧
    (set_speed_msg rpm).getD 4 0 = 0x00 ∧
    set_speed_msg rpm = set_speed_msg 0 ∧
    set_speed_msg 0 = [0x00, 0x55, 0x00, 0x00, 0x00, 0x01, 0x54, 0xA9, 0xFF] := by
  obtain ⟨n, rfl⟩ := Int.eq_ofNat_of_zero_le h0
  have hn : n ≤ 59 := by exact_mod_cast h1
  have htd : (n : Int).tdiv 60 = ((n / 60 : Nat) : Int) := by
    simp [Int.tdiv]
  have hz : set_speed_hz n = 0 := by
    unfold set_speed_hz
    rw [htd, Nat.div_eq_of_lt (by omega)]
    omega
  have hm : set_speed_msg n = [0x00, 0x55, 0x00, 0x00, 0x00, 0x01, 0x54, 0xA9, 0xFF] := by
    show [(0x00 : Nat), 0x55, 0x00, (set_speed_hz n >>> 8) % 256, set_speed_hz n % 256,
      0x01, 0x54, 0xA9, 0xFF] = _
    rw [hz]
    decide
  refine ⟨hz, ?_, ?_, ?_, by decide⟩
  · rw [hm]
    decide
  · rw [hm]
    decide
  · rw [hm]
    decide

/-- C10 witness: the theorem instantiated at `target_rpm = 59`. -/
theorem c10_low_rpm_zero_frame_witness :
    set_speed_hz 59 = 0 ∧ set_speed_msg 59 = set_speed_msg 0 := by
  have h := c10_low_rpm_zero_frame 59 (by decide) (by decide)
  exact ⟨h.1, h.2.2.2.1⟩

/-- The bytes of the 13-byte status frames delivered by streamSlice at
indices 0-12, as a plain list; evaluation lemma used for the digit lookups. -/
theorem streamSlice_thirteen (f : Nat → Nat) (p : Nat) :
    streamSlice f p 13 =
      [f (p + 0), f (p + 1), f (p + 2), f (p + 3), f (p + 4), f (p + 5), f (p + 6),
        f (p + 7), f (p + 8), f (p + 9), f (p + 10), f (p + 11), f (p + 12)] := rfl

/-- C7: in every execution of `report_speed`, the drain loop runs to
completion (the buffer is empty when it stops) and discards every buffered
byte strictly before the first of the 13 blocking reads; the 13 status-frame
bytes therefore come from the post-drain stream positions `pos .. pos+12`,
and the reported RPM is decoded from stream bytes `pos+3 .. pos+7`. -/
theorem c7_drain_before_read (s : MachineState) :
    (drain s).buf = [] ∧
    (report_speed s).log =
      s.log ++ s.buf.map Event.readByte
            ++ (streamSlice s.stream s.pos 13).map Event.readByte
            ++ [Event.printRpm (report_hz (s.stream (s.pos + 3)) (s.stream (s.pos + 4))
                  (s.stream (s.pos + 5)) (s.stream (s.pos + 6)) (s.stream (s.pos + 7))
                  / 100 * 60)] := by
  have hd := drain_spec s.buf s rfl
  constructor
  · rw [hd]
  · unfold report_speed
    rw [hd]
    have hr := read_bytes_spec 13
      { s with buf := ([] : List Nat), log := s.log ++ s.buf.map Event.readByte } rfl
    simp only [hr, streamSlice_thirteen]
    simp [List.append_assoc]

/-- C9: `set_speed` (for every rpm and every starting state) and
`report_speed` leave the controller's `spindle_on` flag unchanged, while
`turn_on` sets it true and `turn_off` sets it false; `set_speed` also leaves
the receive-side state (buffer and stream position) untouched. -/
theorem c9_state_effects (dt : ℚ) (rpm : Int) (s : MachineState) :
    (set_speed dt rpm s).spindle_on = s.spindle_on ∧
    (report_speed s).spindle_on = s.spindle_on ∧
    (turn_on dt s).spindle_on = true ∧
    (turn_off dt s).spindle_on = false ∧
    (set_speed dt rpm s).buf = s.buf ∧
    (set_speed dt rpm s).pos = s.pos := by
  have hd := drain_spec s.buf s rfl
  have hrs : (report_speed s).spindle_on = s.spindle_on := by
    unfold report_speed
    rw [hd]
    have hr := read_bytes_spec 13
      { s with buf := ([] : List Nat), log := s.log ++ s.buf.map Event.readByte } rfl
    simp [hr]
  exact ⟨rfl, hrs, rfl, rfl, rfl, rfl⟩

/-- C8: each of `turn_on`, `turn_off`, `set_speed` produces exactly the
sequence: assert the direction line, delay 1, write the 9 frame bytes in
order, delay `ceil(9 * per_byte_delay)`, deassert the direction line,
delay 50 — in this order with none skipped. -/
theorem c8_transmission_sequence (dt : ℚ) (rpm : Int) (s : MachineState) :
    turn_on_msg.length = 9 ∧
    turn_off_msg.length = 9 ∧
    (set_speed_msg rpm).length = 9 ∧
    (turn_on dt s).log = s.log ++ [Event.dirSet, Event.delayMs 1,
      Event.writeFrame turn_on_msg, Event.delayMs ((9 : ℚ) * dt).ceil,
      Event.dirClear, Event.delayMs 50] ∧
    (turn_off dt s).log = s.log ++ [Event.dirSet, Event.delayMs 1,
      Event.writeFrame turn_off_msg, Event.delayMs ((9 : ℚ) * dt).ceil,
      Event.dirClear, Event.delayMs 50] ∧
    (set_speed dt rpm s).log = s.log ++ [Event.dirSet, Event.delayMs 1,
      Event.writeFrame (set_speed_msg rpm), Event.delayMs ((9 : ℚ) * dt).ceil,
      Event.dirClear, Event.delayMs 50] := by
  have hc : ((9 : Nat) : ℚ) = (9 : ℚ) := by norm_num
  have h1 : ((turn_on_msg.length : Nat) : ℚ) = (9 : ℚ) := hc
  have h2 : ((turn_off_msg.length : Nat) : ℚ) = (9 : ℚ) := hc
  have h3 : (((set_speed_msg rpm).length : Nat) : ℚ) = (9 : ℚ) := hc
  refine ⟨rfl, rfl, rfl, ?_, ?_, ?_⟩
  · unfold turn_on
    rw [h1]
    simp [dir_set, delay, serial_write, dir_clear, List.append_assoc]
  · unfold turn_off
    rw [h2]
    simp [dir_set, delay, serial_write, dir_clear, List.append_assoc]
  · unfold set_speed
    rw [h3]
    simp [dir_set, delay, serial_write, dir_clear, List.append_assoc]

/-- The concrete incoming status frame of claim C6: digit bytes
`D1..D5 = [0, 0, 2, 5, 0]` at positions 3-7, with the protocol-fixed bytes in
place; after position 12 the stream idles at 0. -/
def c6_stream : Nat → Nat := fun i =>
  [0x00, 0x55, 0, 0, 0, 2, 5, 0, 0x01, 0x00, 0x00, 0x00, 0xFF].getD i 0

/-- A machine about to execute `report_speed` with an empty receive buffer and
the C6 status frame incoming. -/
def c6_state : MachineState :=
  { spindle_on := false, dir := false, buf := [], stream := c6_stream, pos := 0, log := [] }

/-- C6: for the received status frame with digit bytes `[0, 0, 2, 5, 0]` the
exact weighted decode value `0*100 + 0*10 + 2*1 + 5*0.1 + 0*0.01` is 2.5 units
(250 centi-units); truncating it to an integer gives a raw frequency of 2, and
`rpm = 2 / 100 * 60 = 0` under integer divide-before-multiply, so
`report_speed` reports an RPM of 0. -/
theorem c6_decode_truncation :
    (((0 : Nat) : ℚ) * 100 + ((0 : Nat) : ℚ) * 10 + ((2 : Nat) : ℚ) * 1
      + ((5 : Nat) : ℚ) * (1 / 10) + ((0 : Nat) : ℚ) * (1 / 100)) * 100 = 250 ∧
    report_hz 0 0 2 5 0 = 2 ∧
    report_hz 0 0 2 5 0 / 100 * 60 = 0 ∧
    (report_speed c6_state).log =
      [Event.readByte 0x00, Event.readByte 0x55, Event.readByte 0, Event.readByte 0,
        Event.readByte 0, Event.readByte 2, Event.readByte 5, Event.readByte 0,
        Event.readByte 0x01, Event.readByte 0x00, Event.readByte 0x00, Event.readByte 0x00,
        Event.readByte 0xFF, Event.printRpm 0] := by
  have hhz : report_hz 0 0 2 5 0 = 2 := by
    unfold report_hz
    have he : ((0 : Nat) : ℚ) * 100 + ((0 : Nat) : ℚ) * 10 + ((2 : Nat) : ℚ) * 1
        + ((5 : Nat) : ℚ) * (1 / 10) + ((0 : Nat) : ℚ) * (1 / 100) = 5 / 2 := by
      norm_num
    rw [he]
    have hf : Int.floor ((5 : ℚ) / 2) = 2 := by
      rw [Int.floor_eq_iff]
      constructor <;> norm_num
    rw [hf]
    rfl
  refine ⟨by norm_num, hhz, by rw [hhz], ?_⟩
  have hd : drain c6_state = c6_state := drain_spec [] c6_state rfl
  unfold report_speed
  rw [hd]
  have hrb := read_bytes_spec 13 c6_state rfl
  simp only [hrb, streamSlice_thirteen]
  have hs : ∀ i : Nat, c6_state.stream (c6_state.pos + i) = c6_stream i := by
    intro i
    show c6_stream (0 + i) = c6_stream i
    rw [Nat.zero_add]
  simp only [hs]
  norm_num [c6_state, c6_stream, hhz]

end A131
